import Mathlib

/-!
# Verification of the MusicBrainz Artist Credits Helper userscript

A shallow embedding of `musicbrainz-artist-credits-helper.user.js`.
Strings are modelled as `List Char`; the JavaScript regular expression
`JOIN_PHRASE_PATTERN` is modelled by an executable backtracking matcher
following the ECMAScript semantics of the concrete pattern

  `\s*(?:[\(（]CV[\.:： ]?|[\)）]\s*[,，、・]?|\s(?:featuring|feat|ft|vs)[\.\s]|,|，|、|&|・)\s*`

with flags `g` and `i`.  `String.prototype.matchAll` and
`String.prototype.split` both enumerate the leftmost, non-overlapping
matches of this pattern (the pattern never matches the empty string, so
the two builtins agree on the decomposition of the input into
alternating unmatched pieces and matched boundaries); the shared
decomposition is computed by `decompose`.

The DOM-backed artist-credit editor is modelled by a flat list of
`InputBox` values (one per `input[type=text]` element, in document
order); `getInputs` groups them by three exactly as the script does.
JavaScript exceptions (property access on `undefined`) are modelled by
`Except Unit`.
-/

/-- ECMAScript `\s` (WhiteSpace ∪ LineTerminator). -/
def isJsWs (c : Char) : Bool :=
  c == ' ' || c == '\t' || c == '\n' || c.toNat == 11 || c.toNat == 12 ||
  c == '\r' || c.toNat == 0xa0 || c.toNat == 0x1680 ||
  (decide (0x2000 ≤ c.toNat) && decide (c.toNat ≤ 0x200a)) ||
  c.toNat == 0x2028 || c.toNat == 0x2029 || c.toNat == 0x202f ||
  c.toNat == 0x205f || c.toNat == 0x3000 || c.toNat == 0xfeff

/-- Greedy `\s*`: the maximal whitespace run at the head, and the rest. -/
def wsSpan : List Char → List Char × List Char
  | [] => ([], [])
  | c :: rest =>
    if isJsWs c then
      let (w, r) := wsSpan rest
      (c :: w, r)
    else ([], c :: rest)

/-- Case-insensitive literal word match (pattern given in lower case),
returning the consumed input characters and the rest. -/
def matchWordCI : List Char → List Char → Option (List Char × List Char)
  | [], l => some ([], l)
  | _ :: _, [] => none
  | w :: ws, c :: rest =>
    if c.toLower == w then
      match matchWordCI ws rest with
      | some (m, r) => some (c :: m, r)
      | none => none
    else none

/-- Character class `[\.:： ]` (optional char after `CV`). -/
def isCVDot (c : Char) : Bool :=
  c == '.' || c == ':' || c == '：' || c == ' '

/-- Character class `[\(（]`. -/
def isOpenParen (c : Char) : Bool := c == '(' || c == '（'

/-- Character class `[\)）]`. -/
def isCloseParen (c : Char) : Bool := c == ')' || c == '）'

/-- Character class `[,，、・]` (optional separator after a close paren). -/
def isCloseSep (c : Char) : Bool :=
  c == ',' || c == '，' || c == '、' || c == '・'

/-- The single-character alternatives `,|，|、|&|・`. -/
def isSingleSep (c : Char) : Bool :=
  c == ',' || c == '，' || c == '、' || c == '&' || c == '・'

/-- Character class `[\.\s]` closing the conjunction-word alternative. -/
def isFeatEnd (c : Char) : Bool := c == '.' || isJsWs c

/-- Alternative 1: `[\(（]CV[\.:： ]?` (flag `i` on the letters). -/
def matchCVOpen : List Char → Option (List Char × List Char)
  | c :: c1 :: c2 :: d :: rest2 =>
    if isOpenParen c && c1.toLower == 'c' && c2.toLower == 'v' then
      if isCVDot d then some ([c, c1, c2, d], rest2)
      else some ([c, c1, c2], d :: rest2)
    else none
  | [c, c1, c2] =>
    if isOpenParen c && c1.toLower == 'c' && c2.toLower == 'v' then
      some ([c, c1, c2], [])
    else none
  | _ => none

/-- Continuation of alternative 2 after the close paren: greedy `\s*`
followed by the optional separator `[,，、・]?`. -/
def closeTail (c : Char) : List Char × List Char → Option (List Char × List Char)
  | (w, []) => some (c :: w, [])
  | (w, d :: r2) =>
    if isCloseSep d then some (c :: (w ++ [d]), r2)
    else some (c :: w, d :: r2)

/-- Alternative 2: `[\)）]\s*[,，、・]?`. -/
def matchCloseParen : List Char → Option (List Char × List Char)
  | [] => none
  | c :: rest =>
    if isCloseParen c then closeTail c (wsSpan rest) else none

/-- Continuation of a conjunction word: the next character must match
`[\.\s]` and is part of the match (otherwise this word alternative is
rejected and the engine backtracks to the next one). -/
def conjTail : Option (List Char × List Char) → Option (List Char × List Char)
  | some (m, d :: r) => if isFeatEnd d then some (m ++ [d], r) else none
  | some (_, []) => none
  | none => none

/-- One conjunction word followed by `[\.\s]`. -/
def tryConj (w l : List Char) : Option (List Char × List Char) :=
  conjTail (matchWordCI w l)

/-- Ordered alternation `(?:featuring|feat|ft|vs)` followed by `[\.\s]`. -/
def tryConjAll (rest : List Char) : Option (List Char × List Char) :=
  match tryConj "featuring".data rest with
  | some res => some res
  | none =>
    match tryConj "feat".data rest with
    | some res => some res
    | none =>
      match tryConj "ft".data rest with
      | some res => some res
      | none => tryConj "vs".data rest

/-- Alternative 3: `\s(?:featuring|feat|ft|vs)[\.\s]`. -/
def matchFeat : List Char → Option (List Char × List Char)
  | [] => none
  | c :: rest =>
    if isJsWs c then
      match tryConjAll rest with
      | some (m, r) => some (c :: m, r)
      | none => none
    else none

/-- Alternatives 4–8: the single separator characters. -/
def matchSingle : List Char → Option (List Char × List Char)
  | [] => none
  | c :: rest => if isSingleSep c then some ([c], rest) else none

/-- The inner group `(?:…)` of `JOIN_PHRASE_PATTERN`, alternatives in
pattern order (ECMAScript alternation is ordered). -/
def coreMatch (l : List Char) : Option (List Char × List Char) :=
  match matchCVOpen l with
  | some res => some res
  | none =>
    match matchCloseParen l with
    | some res => some res
    | none =>
      match matchFeat l with
      | some res => some res
      | none => matchSingle l

/-- On a successful core match append the greedy trailing `\s*` and the
already-consumed leading whitespace `pre`. -/
def coreTail (pre : List Char) : Option (List Char × List Char) → Option (List Char × List Char)
  | some (m, r) => some (pre ++ m ++ (wsSpan r).1, (wsSpan r).2)
  | none => none

/-- Attempt the core at `l` with already-consumed leading whitespace
`pre`; on success append the greedy trailing `\s*`. -/
def tryCore (pre l : List Char) : Option (List Char × List Char) :=
  coreTail pre (coreMatch l)

/-- Backtracking for the greedy leading `\s*`: the first argument is the
not-yet-given-back part of the whitespace run, reversed; longest
whitespace consumption is attempted first, exactly as the ECMAScript
engine does. -/
def wsBacktrack : List Char → List Char → Option (List Char × List Char)
  | [], l => tryCore [] l
  | c :: wrev, l =>
    match tryCore (c :: wrev).reverse l with
    | some res => some res
    | none => wsBacktrack wrev (c :: l)

/-- Anchored match of the whole `JOIN_PHRASE_PATTERN` at the head of
`l`: `some (m, r)` means the pattern matches the prefix `m` and `r` is
the remaining input. -/
def matchSuffix (l : List Char) : Option (List Char × List Char) :=
  wsBacktrack (wsSpan l).1.reverse (wsSpan l).2

/-- Leftmost non-overlapping global matching, shared by
`String.prototype.matchAll` and `String.prototype.split`: the list of
(piece before match, match) pairs and the final piece after the last
match.  The fuel argument bounds the recursion by the input length. -/
def decompAux : Nat → List Char → List (List Char × List Char) × List Char
  | 0, l => ([], l)
  | _ + 1, [] => ([], [])
  | fuel + 1, c :: rest =>
    match matchSuffix (c :: rest) with
    | some (m, r) => (([], m) :: (decompAux fuel r).1, (decompAux fuel r).2)
    | none =>
      match decompAux fuel rest with
      | ([], fin) => ([], c :: fin)
      | ((p, mm) :: ps, fin) => ((c :: p, mm) :: ps, fin)

/-- The decomposition of `s` into alternating unmatched pieces and
pattern matches. -/
def decompose (s : List Char) : List (List Char × List Char) × List Char :=
  decompAux s.length s

/-- `match.index` bookkeeping: absolute start index of every match, as
reported by `matchAll`, starting from position `pos`. -/
def matchesFrom : List (List Char × List Char) → Nat → List (Nat × List Char)
  | [], _ => []
  | (p, m) :: ps, pos => (pos + p.length, m) :: matchesFrom ps (pos + p.length + m.length)

/-- `str.matchAll(JOIN_PHRASE_PATTERN)` as a list of (index, match). -/
def matchesWithIndex (s : List Char) : List (Nat × List Char) :=
  matchesFrom (decompose s).1 0

/-- `str.split(JOIN_PHRASE_PATTERN)`: the pieces between matches,
including a leading or trailing empty piece when a match touches an end
of the string. -/
def splitList (s : List Char) : List (List Char) :=
  (decompose s).1.map Prod.fst ++ [(decompose s).2]

/-- The `ArtistCredit` record built by the parser
(`artist` / `creditedAs` / `joinPhrase`). -/
structure ArtistCredit where
  artist : List Char
  creditedAs : Option (List Char) := none
  joinPhrase : Option (List Char) := none
deriving DecidableEq, Repr

instance : Inhabited ArtistCredit := ⟨⟨[], none, none⟩⟩

/-- The `for (const artist of artists)` loop of
`parseArtistCreditsString`: pairs each split piece with the next
`matchAll` result, attaching the matched text as `joinPhrase` of the
current credit exactly when the match starts where the piece ends
(`match.index === pos`); the match is consumed either way. -/
def parseLoop : List (List Char) → List (Nat × List Char) → Nat → List ArtistCredit
  | [], _, _ => []
  | artist :: artists, [], pos =>
    { artist := artist } :: parseLoop artists [] (pos + artist.length)
  | artist :: artists, (idx, m) :: rest, pos =>
    if idx = pos + artist.length then
      { artist := artist, joinPhrase := some m } ::
        parseLoop artists rest (pos + artist.length + m.length)
    else
      { artist := artist } :: parseLoop artists rest (pos + artist.length)

/-- `parseArtistCreditsString`. -/
def parseArtistCreditsString (str : List Char) : List ArtistCredit :=
  if str = [] then []
  else
    match parseLoop (splitList str) (matchesWithIndex str) 0 with
    | [] => []
    | c :: rest => { c with creditedAs := some c.artist } :: rest

/-- Concatenation of `artist` and `joinPhrase` (empty when absent) over
a credit list, the reconstruction the round-trip claim is about. -/
def reconstruct : List ArtistCredit → List Char
  | [] => []
  | c :: cs => c.artist ++ c.joinPhrase.getD [] ++ reconstruct cs

/-- Interleaving of a decomposition back into the original string. -/
def interleave : List (List Char × List Char) → List Char → List Char
  | [], fin => fin
  | (p, m) :: ps, fin => p ++ m ++ interleave ps fin

structure InputBox where
  value : List Char
  disabled : Bool
deriving DecidableEq, Repr

instance : Inhabited InputBox := ⟨⟨[], false⟩⟩

/-- The `{artist, creditedAs, joinPhrase}` record of input elements
built by `getInputs`; fields hold the index of the input element in the
flat list, or `none` for `undefined` (short final slice). -/
structure InputGroup where
  artist : Option Nat
  creditedAs : Option Nat
  joinPhrase : Option Nat
deriving DecidableEq, Repr

/-- An `ArtistCredit` object as the editor methods consume it: a
JavaScript object whose three properties may each be absent. -/
structure JsCredit where
  artist : Option (List Char) := none
  creditedAs : Option (List Char) := none
  joinPhrase : Option (List Char) := none
deriving DecidableEq, Repr

/-- JavaScript truthiness of an (optional) string property. -/
def truthy : Option (List Char) → Bool
  | none => false
  | some v => !v.isEmpty

/-- `Math.ceil(inputs.length / SIZE)` with `SIZE = 3`. -/
def numGroups (st : List InputBox) : Nat := (st.length + 2) / 3

/-- Index of the `j`-th text input if it exists (`undefined` otherwise). -/
def optIdx (st : List InputBox) (j : Nat) : Option Nat :=
  if j < st.length then some j else none

/-- The `i`-th slice of three inputs, as the record built by
`getInputs` (missing entries are `undefined` in a short final slice). -/
def groupAt (st : List InputBox) (i : Nat) : InputGroup :=
  ⟨optIdx st (3 * i), optIdx st (3 * i + 1), optIdx st (3 * i + 2)⟩

/-- All slices of three, before the `slice(sliceIndex)` call. -/
def allGroups (st : List InputBox) : List InputGroup :=
  (List.range (numGroups st)).map (groupAt st)

/-- `Array.prototype.slice(start)` start-index resolution. -/
def jsSliceStart (len : Nat) (i : Int) : Nat :=
  if i < 0 then (max ((len : Int) + i) 0).toNat else (min i (len : Int)).toNat

/-- `Array.prototype.at(i)` index resolution on a length-`n` array. -/
def resolveIndex (n : Nat) (i : Int) : Option Nat :=
  if 0 ≤ i then (if i < (n : Int) then some i.toNat else none)
  else (if 0 ≤ (n : Int) + i then some ((n : Int) + i).toNat else none)

/-- `Array.prototype.at`. -/
def jsAt {α : Type} (l : List α) (i : Int) : Option α :=
  (resolveIndex l.length i).bind (fun k => l[k]?)

/-- The body of `setInputValue` once the input element has been looked
up: return without writing when it is missing or disabled, otherwise
set the value. -/
def setBox (st : List InputBox) (i : Nat) : Option InputBox → List Char → List InputBox
  | none, _ => st
  | some box, v => if box.disabled then st else st.set i { box with value := v }

/-- `setInputValue`: returns without writing when the input is
`undefined`/missing or disabled, otherwise sets the value (the React
synthetic input event has no counterpart in this state model). -/
def setInputValue (st : List InputBox) (idx : Option Nat) (v : List Char) : List InputBox :=
  match idx with
  | none => st
  | some i => setBox st i st[i]? v

/-- One key of the `for (const key in newCredit)` loop of
`updateInputs`: an absent key is skipped by the loop, a falsy value is
skipped by the `if (value)` guard, and a present truthy value is written
through `setInputValue inputs[key]`; evaluating `inputs[key]` when
`inputs` is `undefined` throws a TypeError. -/
def updateField (g : Option InputGroup) (sel : InputGroup → Option Nat)
    (v : Option (List Char)) (st : List InputBox) : Except Unit (List InputBox) :=
  match v with
  | none => .ok st
  | some v =>
    if v.isEmpty then .ok st
    else
      match g with
      | none => .error ()
      | some gr => .ok (setInputValue st (sel gr) v)

/-- `ArtistCreditsEditor.updateInputs(inputs, newCredit)`.  The key
order artist, creditedAs, joinPhrase is the insertion order of every
credit object the script builds; the three writes target distinct
inputs, so the order cannot affect the final state. -/
def updateInputs (g : Option InputGroup) (c : JsCredit) (st : List InputBox) :
    Except Unit (List InputBox) :=
  match updateField g (fun gr => gr.artist) c.artist st with
  | .error e => .error e
  | .ok st1 =>
    match updateField g (fun gr => gr.creditedAs) c.creditedAs st1 with
    | .error e => .error e
    | .ok st2 => updateField g (fun gr => gr.joinPhrase) c.joinPhrase st2

/-- `ArtistCreditsEditor.getInputs(sliceIndex)`. -/
def getInputs (st : List InputBox) (sliceIndex : Int) : List InputGroup :=
  (allGroups st).drop (jsSliceStart (allGroups st).length sliceIndex)

/-- Reading `value.value` for one entry of `Object.entries(inputs)` in
`update`: throws when the input element is `undefined`. -/
def readField (st : List InputBox) (idx : Option Nat) : Except Unit (List Char) :=
  match idx with
  | none => .error ()
  | some i => .ok (st[i]?.getD default).value

/-- `ArtistCreditsEditor.update(index, updater)`: look up the slot with
`.at(index)` (negative indices count from the end); when no slot exists,
return without touching anything; otherwise read the three current
values into a credit, apply the updater and write the result back
through `updateInputs`. -/
def editorUpdate (st : List InputBox) (index : Int) (updater : JsCredit → JsCredit) :
    Except Unit (List InputBox) :=
  match jsAt (getInputs st 0) index with
  | none => .ok st
  | some gr =>
    match readField st gr.artist with
    | .error e => .error e
    | .ok a =>
      match readField st gr.creditedAs with
      | .error e => .error e
      | .ok ca =>
        match readField st gr.joinPhrase with
        | .error e => .error e
        | .ok jp => updateInputs (some gr) (updater ⟨some a, some ca, some jp⟩) st

/-- The sizing phase of `ArtistCreditsEditor.fill`: the number of
add-slot clicks issued (one per missing entry, none otherwise). -/
def fillRequests (st : List InputBox) (credits : List JsCredit) : Nat :=
  if (getInputs st 0).length < credits.length then
    credits.length - (getInputs st 0).length
  else 0

/-- The `credits.forEach` of the write phase of `fill`: `inputs[index]`
is looked up in the group list `gs` enumerated once from the settled
state; a thrown TypeError aborts the remaining writes. -/
def fillGo : List InputBox → List InputGroup → List JsCredit → Nat → Except Unit (List InputBox)
  | st, _, [], _ => .ok st
  | st, gs, c :: cs, i =>
    match updateInputs gs[i]? c st with
    | .error e => .error e
    | .ok st1 => fillGo st1 gs cs (i + 1)

/-- The write phase of `ArtistCreditsEditor.fill` (the body of the 30 ms
timeout), applied to the state `st` as settled after the add-slot
requests. -/
def fillWrite (st : List InputBox) (credits : List JsCredit) : Except Unit (List InputBox) :=
  fillGo st (getInputs st 0) credits 0

/-- The write phase of `ArtistCreditsEditor.append` (after the click and
the 10 ms delay): write the credit into `getInputs(-1)[0]`, the last
slot of the settled state. -/
def appendWrite (st : List InputBox) (credit : JsCredit) : Except Unit (List InputBox) :=
  updateInputs (getInputs st (-1))[0]? credit st

/-- One relationship of the MusicBrainz `artist-rels` response. -/
structure Relation where
  typeId : List Char
  direction : List Char
  ended : Bool
  artistId : List Char

/-- The external world as the flow observes it: the rendered preview
(name, gid) link pairs scanned by `getCharacterMBID`, and the
relationship list returned by the remote lookup of `getVoiceActor`. -/
structure Env where
  previewArtists : List (List Char × List Char)
  relations : List Relation

/-- The voice-actor relationship type id filtered by `getVoiceActor`. -/
def RELATIONSHIP_ID : List Char := "e259a3f5-ce8e-45c1-9ef7-90ff7d0c7589".data

/-- Default `CV_JOIN_PHRASES`. -/
def CV_JOIN_PHRASES : List Char × List Char := (" (CV ".data, ")".data)

/-- Default `SEPARATOR`. -/
def SEPARATOR : List Char := ",".data

/-- The persisted `cv_join_phrases` configuration object
(`GM_getValue`); `none` models an unset key. -/
structure CVConfig where
  joinPhrases : List Char × List Char
  separator : List Char

/-- The record returned by `getCVJoinPhrases`. -/
structure CVTokens where
  joinPhrase1 : List Char
  joinPhrase2 : List Char
  separator : List Char
deriving DecidableEq, Repr

/-- `getCVJoinPhrases`: spread of the stored configuration over the
defaults (an absent stored value leaves every default in place). -/
def getCVJoinPhrases (cfg : Option CVConfig) : CVTokens :=
  match cfg with
  | none => ⟨CV_JOIN_PHRASES.1, CV_JOIN_PHRASES.2, SEPARATOR⟩
  | some c => ⟨c.joinPhrases.1, c.joinPhrases.2, c.separator⟩

/-- JavaScript string coercion in `credit.joinPhrase + separator`:
an `undefined` property stringifies to "undefined". -/
def jsStr : Option (List Char) → List Char
  | some s => s
  | none => "undefined".data

/-- `getCharacterMBID` without its alert: the gid of the preview link
whose name equals the character name. -/
def findCharacterMBID (env : Env) (characterName : List Char) : Option (List Char) :=
  (env.previewArtists.find? (fun a => a.1 == characterName)).map (fun a => a.2)

/-- The relationship filter of `getVoiceActor`: first relation of the
expected type, in the backward direction and not ended. -/
def findVoiceRelation (rels : List Relation) : Option Relation :=
  rels.find? (fun r => r.typeId == RELATIONSHIP_ID &&
    r.direction == "backward".data && !r.ended)

/-- `editor.getInputs(-1)[0]?.artist?.value`: the optional chain to the
last slot's artist value. -/
def characterNameOf (st : List InputBox) : Option (List Char) :=
  match (getInputs st (-1))[0]? with
  | none => none
  | some gr =>
    match gr.artist with
    | none => none
    | some j => some (st[j]?.getD default).value

def alertEnterCharacter : List Char := "Please enter a character first.".data

def alertCharacterNotFound : List Char := "Character not found in preview text.".data

def alertNoVoiceActor : List Char := "No voice actor relationship found.".data

/-- Observable outcome of one invocation of `appendCharacterCV`: the
alert messages shown, the final state of the slot inputs (or a thrown
TypeError), and the number of add-slot clicks issued. -/
structure FlowResult where
  alerts : List (List Char)
  result : Except Unit (List InputBox)
  addRequests : Nat

/-- `getVoiceActor` (the part after the network response): `none` input
(a falsy `characterMBID`) resolves to null without alerting; otherwise
the relationship filter runs and a miss alerts. -/
def getVoiceActor (env : Env) (characterMBID : Option (List Char)) :
    Option (List Char) × List (List Char) :=
  match characterMBID with
  | none => (none, [])
  | some gid =>
    if gid.isEmpty then (none, [])
    else
      match findVoiceRelation env.relations with
      | some rel => (some rel.artistId, [])
      | none => (none, [alertNoVoiceActor])

/-- The updater passed to `update(-2, …)`: append the separator and a
space to the old join phrase (string concatenation on the value read
from the input). -/
def cvSepUpdater (sep : List Char) (credit : JsCredit) : JsCredit :=
  { credit with joinPhrase := some (jsStr credit.joinPhrase ++ sep ++ [' ']) }

/-- The updater passed to `update(-1, …)`: replace the join phrase by
the opening voice-credit token. -/
def cvOpenUpdater (tok : List Char) (credit : JsCredit) : JsCredit :=
  { credit with joinPhrase := some tok }

/-- `appendCharacterCV`: read the character name from the last slot
(alert and abort when absent or empty); read the configured tokens once;
resolve the character gid on screen (alert on miss, the miss value then
short-circuits the voice-actor lookup); resolve the voice actor (alert
on relationship miss); when a truthy mbid was found, rewrite the
second-to-last slot's join phrase (old value + separator + space),
rewrite the last slot's join phrase to the opening token, and append a
new slot carrying the mbid and the closing token.  `freshSlot` is the
three input elements the host UI appends for the add-slot click before
the append write runs. -/
def appendCharacterCV (st : List InputBox) (env : Env) (cfg : Option CVConfig)
    (freshSlot : List InputBox) : FlowResult :=
  match characterNameOf st with
  | none => ⟨[alertEnterCharacter], .ok st, 0⟩
  | some nm =>
    if nm.isEmpty then ⟨[alertEnterCharacter], .ok st, 0⟩
    else
      let tokens := getCVJoinPhrases cfg
      let lookup :=
        match findCharacterMBID env nm with
        | none => (([alertCharacterNotFound] : List (List Char)), (none : Option (List Char)))
        | some gid => ([], some gid)
      let va := getVoiceActor env lookup.2
      let alerts := lookup.1 ++ va.2
      match va.1 with
      | none => ⟨alerts, .ok st, 0⟩
      | some mbid =>
        if mbid.isEmpty then ⟨alerts, .ok st, 0⟩
        else
          let written :=
            match editorUpdate st (-2) (cvSepUpdater tokens.separator) with
            | .error e => .error e
            | .ok st1 =>
              match editorUpdate st1 (-1) (cvOpenUpdater tokens.joinPhrase1) with
              | .error e => .error e
              | .ok st2 =>
                appendWrite (st2 ++ freshSlot) ⟨some mbid, none, some tokens.joinPhrase2⟩
          ⟨alerts, written, 1⟩

/-- The effect of one key of the `updateInputs` loop on an existing
group: nothing for an absent or falsy value, `setInputValue` otherwise. -/
def writeTruthy (st : List InputBox) (idx : Option Nat) (v : Option (List Char)) :
    List InputBox :=
  match v with
  | none => st
  | some vv => if vv.isEmpty then st else setInputValue st idx vv

/-- Modelled from the spec (§4.3): writing back one field of the
updater's result — a field that is absent or empty is not written, a
present non-empty field replaces the slot field's value (inputs are
assumed enabled, as in the editor bubble; an out-of-range write is the
identity). -/
def specWrite (st : List InputBox) (j : Nat) (v : Option (List Char)) : List InputBox :=
  match v with
  | none => st
  | some vv => if vv = [] then st else st.set j ⟨vv, false⟩

/-- Modelled from the spec: write back the three fields of the
updater's result into slot `g`. -/
def specWriteBack (st : List InputBox) (g : Nat) (nc : JsCredit) : List InputBox :=
  specWrite (specWrite (specWrite st (3 * g) nc.artist) (3 * g + 1) nc.creditedAs)
    (3 * g + 2) nc.joinPhrase

/-- The credit read from slot `g`: its three current field values. -/
def readCredit (st : List InputBox) (g : Nat) : JsCredit :=
  ⟨some (st[3 * g]?.getD default).value,
   some (st[3 * g + 1]?.getD default).value,
   some (st[3 * g + 2]?.getD default).value⟩

/-- Modelled from the spec (§4.3 `update`): resolve the index against
the current slot count (negative indices count from the end); when no
slot exists there, perform no write at all; otherwise read the slot's
three current field values into a credit, apply the updater, and write
back only the present, non-empty fields of the result — the slot's
other fields and every field of every other slot keep their prior
values. -/
def updateSpecModel (st : List InputBox) (i : Int) (f : JsCredit → JsCredit) :
    List InputBox :=
  match resolveIndex (st.length / 3) i with
  | none => st
  | some g => specWriteBack st g (f (readCredit st g))

/-- A concrete two-slot editor state used by witnesses. -/
def c5State : List InputBox :=
  [⟨"X".data, false⟩, ⟨"Y".data, false⟩, ⟨" & ".data, false⟩,
   ⟨"Chara".data, false⟩, ⟨[], false⟩, ⟨[], false⟩]

/-- A concrete environment where both lookups succeed. -/
def c6Env : Env :=
  ⟨[("Chara".data, "gid1".data)],
   [⟨RELATIONSHIP_ID, "backward".data, false, "abc-123".data⟩]⟩

/-- A two-slot state whose last slot already has a join phrase. -/
def cexState : List InputBox :=
  [⟨"X".data, false⟩, ⟨[], false⟩, ⟨" & ".data, false⟩,
   ⟨"Chara".data, false⟩, ⟨[], false⟩, ⟨"OLD".data, false⟩]

/-! ## Theorems -/

/-! ## Structural facts about the pattern matcher -/

lemma wsSpan_append : ∀ l : List Char, (wsSpan l).1 ++ (wsSpan l).2 = l := by
  intro l
  induction l with
  | nil => rfl
  | cons c rest ih =>
    by_cases h : isJsWs c
    · simp only [wsSpan, h, if_pos]
      rcases hw : wsSpan rest with ⟨w, r⟩
      rw [hw] at ih
      simpa using ih
    · simp [wsSpan, h]

lemma matchWordCI_append :
    ∀ (w l m r : List Char), matchWordCI w l = some (m, r) → m ++ r = l := by
  intro w
  induction w with
  | nil =>
    intro l m r h
    simp only [matchWordCI, Option.some.injEq, Prod.mk.injEq] at h
    simp [← h.1, ← h.2]
  | cons wc ws ih =>
    intro l m r h
    cases l with
    | nil => exact Option.noConfusion h
    | cons c rest =>
      replace h : (if c.toLower == wc then
          match matchWordCI ws rest with
          | some (m1, r1) => some (c :: m1, r1)
          | none => none
        else none) = some (m, r) := h
      split at h
      · rcases hrec : matchWordCI ws rest with _ | ⟨m1, r1⟩ <;> rw [hrec] at h
        · exact Option.noConfusion h
        · replace h : some (c :: m1, r1) = some (m, r) := h
          simp only [Option.some.injEq, Prod.mk.injEq] at h
          have := ih rest m1 r1 hrec
          rw [← h.1, ← h.2]
          simpa using this
      · exact Option.noConfusion h

lemma matchCVOpen_spec :
    ∀ l m r, matchCVOpen l = some (m, r) → m ++ r = l ∧ m ≠ [] := by
  intro l m r h
  match l with
  | [] => exact Option.noConfusion h
  | [c] => exact Option.noConfusion h
  | [c, c1] => exact Option.noConfusion h
  | [c, c1, c2] =>
    replace h : (if isOpenParen c && c1.toLower == 'c' && c2.toLower == 'v' then
        some ([c, c1, c2], ([] : List Char)) else none) = some (m, r) := h
    split at h
    · simp only [Option.some.injEq, Prod.mk.injEq] at h
      rw [← h.1, ← h.2]
      simp
    · exact Option.noConfusion h
  | c :: c1 :: c2 :: d :: rest2 =>
    replace h : (if isOpenParen c && c1.toLower == 'c' && c2.toLower == 'v' then
        (if isCVDot d then some ([c, c1, c2, d], rest2)
         else some ([c, c1, c2], d :: rest2)) else none) = some (m, r) := h
    split at h
    · split at h <;>
      · simp only [Option.some.injEq, Prod.mk.injEq] at h
        rw [← h.1, ← h.2]
        simp
    · exact Option.noConfusion h

lemma closeTail_spec :
    ∀ c w rr m r, closeTail c (w, rr) = some (m, r) →
      m ++ r = c :: (w ++ rr) ∧ m ≠ [] := by
  intro c w rr m r h
  cases rr with
  | nil =>
    replace h : some (c :: w, ([] : List Char)) = some (m, r) := h
    simp only [Option.some.injEq, Prod.mk.injEq] at h
    rw [← h.1, ← h.2]
    simp
  | cons d r2 =>
    replace h : (if isCloseSep d then some (c :: (w ++ [d]), r2)
        else some (c :: w, d :: r2)) = some (m, r) := h
    split at h <;>
    · simp only [Option.some.injEq, Prod.mk.injEq] at h
      rw [← h.1, ← h.2]
      simp

lemma matchCloseParen_spec :
    ∀ l m r, matchCloseParen l = some (m, r) → m ++ r = l ∧ m ≠ [] := by
  intro l m r h
  match l with
  | [] => exact Option.noConfusion h
  | c :: rest =>
    replace h : (if isCloseParen c then closeTail c (wsSpan rest) else none) =
        some (m, r) := h
    split at h
    · rcases hws : wsSpan rest with ⟨w, rr⟩
      rw [hws] at h
      have := closeTail_spec c w rr m r h
      refine ⟨?_, this.2⟩
      rw [this.1]
      have hw := wsSpan_append rest
      rw [hws] at hw
      simp only at hw
      rw [hw]
    · exact Option.noConfusion h

lemma conjTail_spec :
    ∀ o m r, conjTail o = some (m, r) →
      ∃ mw rw0, o = some (mw, rw0) ∧ m ++ r = mw ++ rw0 ∧ m ≠ [] := by
  intro o m r h
  match o with
  | none => exact Option.noConfusion h
  | some (mw, []) => exact Option.noConfusion h
  | some (mw, d :: r2) =>
    replace h : (if isFeatEnd d then some (mw ++ [d], r2) else none) = some (m, r) := h
    split at h
    · simp only [Option.some.injEq, Prod.mk.injEq] at h
      refine ⟨mw, d :: r2, rfl, ?_, ?_⟩
      · rw [← h.1, ← h.2]
        simp
      · rw [← h.1]
        simp
    · exact Option.noConfusion h

lemma tryConj_spec :
    ∀ w l m r, tryConj w l = some (m, r) → m ++ r = l ∧ m ≠ [] := by
  intro w l m r h
  obtain ⟨mw, rw0, ho, he, hne⟩ := conjTail_spec _ m r h
  have := matchWordCI_append w l mw rw0 ho
  exact ⟨by rw [he, this], hne⟩

lemma tryConjAll_spec :
    ∀ l m r, tryConjAll l = some (m, r) → m ++ r = l ∧ m ≠ [] := by
  intro l m r h
  simp only [tryConjAll] at h
  rcases h1 : tryConj "featuring".data l with _ | ⟨m1, r1⟩ <;> rw [h1] at h
  · rcases h2 : tryConj "feat".data l with _ | ⟨m2, r2⟩ <;> rw [h2] at h
    · rcases h3 : tryConj "ft".data l with _ | ⟨m3, r3⟩ <;> rw [h3] at h
      · exact tryConj_spec _ l m r h
      · simp only [Option.some.injEq, Prod.mk.injEq] at h
        obtain ⟨hml, hrl⟩ := h
        rw [← hml, ← hrl]
        exact tryConj_spec _ l m3 r3 h3
    · simp only [Option.some.injEq, Prod.mk.injEq] at h
      obtain ⟨hml, hrl⟩ := h
      rw [← hml, ← hrl]
      exact tryConj_spec _ l m2 r2 h2
  · simp only [Option.some.injEq, Prod.mk.injEq] at h
    obtain ⟨hml, hrl⟩ := h
    rw [← hml, ← hrl]
    exact tryConj_spec _ l m1 r1 h1

lemma matchFeat_spec :
    ∀ l m r, matchFeat l = some (m, r) → m ++ r = l ∧ m ≠ [] := by
  intro l m r h
  match l with
  | [] => exact Option.noConfusion h
  | c :: rest =>
    replace h : (if isJsWs c then
        match tryConjAll rest with
        | some (m1, r1) => some (c :: m1, r1)
        | none => none
      else none) = some (m, r) := h
    split at h
    · rcases hc : tryConjAll rest with _ | ⟨m1, r1⟩ <;> rw [hc] at h
      · exact Option.noConfusion h
      · replace h : some (c :: m1, r1) = some (m, r) := h
        simp only [Option.some.injEq, Prod.mk.injEq] at h
        have := tryConjAll_spec rest m1 r1 hc
        rw [← h.1, ← h.2]
        exact ⟨by simp [this.1], by simp⟩
    · exact Option.noConfusion h

lemma matchSingle_spec :
    ∀ l m r, matchSingle l = some (m, r) → m ++ r = l ∧ m ≠ [] := by
  intro l m r h
  match l with
  | [] => exact Option.noConfusion h
  | c :: rest =>
    replace h : (if isSingleSep c then some ([c], rest) else none) = some (m, r) := h
    split at h
    · simp only [Option.some.injEq, Prod.mk.injEq] at h
      rw [← h.1, ← h.2]
      simp
    · exact Option.noConfusion h

lemma coreMatch_spec :
    ∀ l m r, coreMatch l = some (m, r) → m ++ r = l ∧ m ≠ [] := by
  intro l m r h
  simp only [coreMatch] at h
  rcases h1 : matchCVOpen l with _ | ⟨m1, r1⟩ <;> rw [h1] at h
  · rcases h2 : matchCloseParen l with _ | ⟨m2, r2⟩ <;> rw [h2] at h
    · rcases h3 : matchFeat l with _ | ⟨m3, r3⟩ <;> rw [h3] at h
      · exact matchSingle_spec l m r h
      · simp only [Option.some.injEq, Prod.mk.injEq] at h
        obtain ⟨hml, hrl⟩ := h
        rw [← hml, ← hrl]
        exact matchFeat_spec l m3 r3 h3
    · simp only [Option.some.injEq, Prod.mk.injEq] at h
      obtain ⟨hml, hrl⟩ := h
      rw [← hml, ← hrl]
      exact matchCloseParen_spec l m2 r2 h2
  · simp only [Option.some.injEq, Prod.mk.injEq] at h
    obtain ⟨hml, hrl⟩ := h
    rw [← hml, ← hrl]
    exact matchCVOpen_spec l m1 r1 h1

lemma tryCore_spec :
    ∀ pre l m r, tryCore pre l = some (m, r) → m ++ r = pre ++ l ∧ m ≠ [] := by
  intro pre l m r h
  simp only [tryCore] at h
  rcases hc : coreMatch l with _ | ⟨cm, cr⟩ <;> rw [hc] at h
  · exact Option.noConfusion h
  · replace h : some (pre ++ cm ++ (wsSpan cr).1, (wsSpan cr).2) = some (m, r) := h
    simp only [Option.some.injEq, Prod.mk.injEq] at h
    have hcs := coreMatch_spec l cm cr hc
    have hw := wsSpan_append cr
    constructor
    · rw [← h.1, ← h.2]
      rw [← hcs.1]
      simp only [List.append_assoc, List.append_cancel_left_eq]
      rw [hw]
    · rw [← h.1]
      simp [hcs.2]

lemma wsBacktrack_spec :
    ∀ wrev l m r, wsBacktrack wrev l = some (m, r) →
      m ++ r = wrev.reverse ++ l ∧ m ≠ [] := by
  intro wrev
  induction wrev with
  | nil =>
    intro l m r h
    simpa using tryCore_spec [] l m r h
  | cons c wr ih =>
    intro l m r h
    simp only [wsBacktrack] at h
    rcases ht : tryCore (c :: wr).reverse l with _ | ⟨m1, r1⟩ <;> rw [ht] at h
    · have := ih (c :: l) m r h
      constructor
      · rw [this.1]
        simp
      · exact this.2
    · simp only [Option.some.injEq, Prod.mk.injEq] at h
      obtain ⟨hml, hrl⟩ := h
      rw [← hml, ← hrl]
      exact tryCore_spec _ l m1 r1 ht

lemma matchSuffix_spec :
    ∀ l m r, matchSuffix l = some (m, r) → m ++ r = l ∧ m ≠ [] := by
  intro l m r h
  simp only [matchSuffix] at h
  have := wsBacktrack_spec (wsSpan l).1.reverse (wsSpan l).2 m r h
  rw [List.reverse_reverse] at this
  exact ⟨by rw [this.1, wsSpan_append], this.2⟩

/-! ## The decomposition reassembles the input -/

lemma decompAux_cons_some {fuel : Nat} {c : Char} {rest m r : List Char}
    (hm : matchSuffix (c :: rest) = some (m, r)) :
    decompAux (fuel + 1) (c :: rest) =
      (([], m) :: (decompAux fuel r).1, (decompAux fuel r).2) := by
  have e : decompAux (fuel + 1) (c :: rest) =
      match matchSuffix (c :: rest) with
      | some (m, r) => (([], m) :: (decompAux fuel r).1, (decompAux fuel r).2)
      | none =>
        match decompAux fuel rest with
        | ([], fin) => ([], c :: fin)
        | ((p, mm) :: ps, fin) => ((c :: p, mm) :: ps, fin) := rfl
  rw [e, hm]

lemma decompAux_cons_none {fuel : Nat} {c : Char} {rest : List Char}
    (hm : matchSuffix (c :: rest) = none) :
    decompAux (fuel + 1) (c :: rest) =
      match decompAux fuel rest with
      | ([], fin) => ([], c :: fin)
      | ((p, mm) :: ps, fin) => ((c :: p, mm) :: ps, fin) := by
  have e : decompAux (fuel + 1) (c :: rest) =
      match matchSuffix (c :: rest) with
      | some (m, r) => (([], m) :: (decompAux fuel r).1, (decompAux fuel r).2)
      | none =>
        match decompAux fuel rest with
        | ([], fin) => ([], c :: fin)
        | ((p, mm) :: ps, fin) => ((c :: p, mm) :: ps, fin) := rfl
  rw [e, hm]

lemma decompAux_interleave :
    ∀ fuel l, l.length ≤ fuel →
      interleave (decompAux fuel l).1 (decompAux fuel l).2 = l := by
  intro fuel
  induction fuel with
  | zero =>
    intro l hl
    have : l = [] := List.length_eq_zero.mp (Nat.le_zero.mp hl)
    subst this
    rfl
  | succ fuel ih =>
    intro l hl
    cases l with
    | nil => rfl
    | cons c rest =>
      rcases hm : matchSuffix (c :: rest) with _ | ⟨m, r⟩
      · rcases hd : decompAux fuel rest with ⟨ps, fin⟩
        have ihr := ih rest (by simpa using Nat.le_of_succ_le_succ hl)
        rw [hd] at ihr
        simp only at ihr
        rw [decompAux_cons_none hm, hd]
        cases ps with
        | nil =>
          show interleave [] (c :: fin) = c :: rest
          simp only [interleave] at ihr ⊢
          rw [ihr]
        | cons pm ps2 =>
          rcases pm with ⟨p, mm⟩
          show interleave ((c :: p, mm) :: ps2) fin = c :: rest
          simp only [interleave] at ihr ⊢
          simp only [List.cons_append, List.append_assoc] at ihr ⊢
          rw [ihr]
      · have hms := matchSuffix_spec _ m r hm
        have hrlen : r.length ≤ fuel := by
          have h1 : m.length + r.length = (c :: rest).length := by
            rw [← hms.1]
            simp
          have h2 : 1 ≤ m.length := by
            cases m with
            | nil => exact absurd rfl hms.2
            | cons _ _ => simp
          simp only [List.length_cons] at h1 hl
          omega
        have ihr := ih r hrlen
        rw [decompAux_cons_some hm]
        simp only [interleave, List.nil_append]
        rw [ihr, hms.1]

lemma decompose_interleave (s : List Char) :
    interleave (decompose s).1 (decompose s).2 = s :=
  decompAux_interleave s.length s le_rfl

/-! ## The parse loop reconstructs the decomposition -/

lemma parseLoop_reconstruct :
    ∀ (ps : List (List Char × List Char)) (fin : List Char) (pos : Nat),
      reconstruct (parseLoop (ps.map Prod.fst ++ [fin]) (matchesFrom ps pos) pos) =
        interleave ps fin := by
  intro ps
  induction ps with
  | nil =>
    intro fin pos
    simp [parseLoop, matchesFrom, reconstruct, interleave]
  | cons pm ps ih =>
    intro fin pos
    rcases pm with ⟨p, m⟩
    simp only [List.map_cons, List.cons_append, matchesFrom, parseLoop, interleave,
      ite_true, eq_self_iff_true, List.append_eq]
    simp only [reconstruct, Option.getD_some]
    rw [ih fin (pos + p.length + m.length)]

lemma parseLoop_nil :
    ∀ l ms pos, parseLoop l ms pos = [] → l = [] := by
  intro l ms pos h
  cases l with
  | nil => rfl
  | cons a as =>
    exfalso
    cases ms with
    | nil => simp [parseLoop] at h
    | cons hd tl =>
      rcases hd with ⟨idx, m⟩
      by_cases hi : idx = pos + a.length <;> simp [parseLoop, hi] at h

/-- **C1.** Round-trip fidelity of the parser: for every input string,
concatenating each credit's `artist` followed by its `joinPhrase` (empty
when absent), in order, reconstructs the input exactly. -/
theorem parse_round_trip (s : List Char) :
    reconstruct (parseArtistCreditsString s) = s := by
  by_cases hs : s = []
  · subst hs; rfl
  · have key : reconstruct (parseLoop (splitList s) (matchesWithIndex s) 0) = s := by
      rw [show splitList s = (decompose s).1.map Prod.fst ++ [(decompose s).2] from rfl,
        show matchesWithIndex s = matchesFrom (decompose s).1 0 from rfl,
        parseLoop_reconstruct, decompose_interleave]
    unfold parseArtistCreditsString
    rw [if_neg hs]
    rcases hp : parseLoop (splitList s) (matchesWithIndex s) 0 with _ | ⟨c, rest⟩
    · exfalso
      have := parseLoop_nil _ _ _ hp
      rw [show splitList s = (decompose s).1.map Prod.fst ++ [(decompose s).2] from rfl] at this
      simp at this
    · rw [hp] at key
      simpa [reconstruct] using key

/-! ## joinPhrase attachment and creditedAs -/

/-- **C3.** In the parse loop, the matched connective text is recorded
verbatim as the `joinPhrase` of the immediately preceding credit exactly
when the match's start index equals the position at which that credit's
entity substring ends (`pos + a.length`); when the positions differ no
`joinPhrase` is set on that credit and the match is dropped. -/
theorem parseLoop_joinPhrase_iff (a : List Char) (artists : List (List Char))
    (idx : Nat) (m : List Char) (ms : List (Nat × List Char)) (pos : Nat) :
    (parseLoop (a :: artists) ((idx, m) :: ms) pos).headI =
      { artist := a, creditedAs := none,
        joinPhrase := if idx = pos + a.length then some m else none } := by
  by_cases hi : idx = pos + a.length <;> simp [parseLoop, hi]

lemma parseLoop_creditedAs :
    ∀ l ms pos c, c ∈ parseLoop l ms pos → c.creditedAs = none := by
  intro l
  induction l with
  | nil =>
    intro ms pos c h
    simp [parseLoop] at h
  | cons a as ih =>
    intro ms pos c h
    cases ms with
    | nil =>
      simp only [parseLoop, List.mem_cons] at h
      rcases h with h | h
      · rw [h]
      · exact ih _ _ c h
    | cons hd tl =>
      rcases hd with ⟨idx, m⟩
      by_cases hi : idx = pos + a.length
      · simp only [parseLoop, hi, ite_true, eq_self_iff_true, List.mem_cons] at h
        rcases h with h | h
        · rw [h]
        · exact ih _ _ c h
      · simp only [parseLoop, if_neg hi, List.mem_cons] at h
        rcases h with h | h
        · rw [h]
        · exact ih _ _ c h

/-- **C4.** Whenever the parser returns a non-empty sequence, the first
credit's `creditedAs` is present and equals its `artist`, and no other
credit has `creditedAs` set. -/
theorem parse_first_creditedAs (s : List Char)
    (h : parseArtistCreditsString s ≠ []) :
    (parseArtistCreditsString s).headI.creditedAs =
      some ((parseArtistCreditsString s).headI.artist) ∧
    ∀ c ∈ (parseArtistCreditsString s).tail, c.creditedAs = none := by
  by_cases hs : s = []
  · subst hs
    simp [parseArtistCreditsString] at h
  · unfold parseArtistCreditsString at h ⊢
    rw [if_neg hs] at h ⊢
    rcases hp : parseLoop (splitList s) (matchesWithIndex s) 0 with _ | ⟨c, rest⟩
    · rw [hp] at h
      simp at h
    · constructor
      · rfl
      · intro cc hcc
        have hmem : cc ∈ parseLoop (splitList s) (matchesWithIndex s) 0 := by
          rw [hp]
          exact List.mem_cons_of_mem _ hcc
        exact parseLoop_creditedAs _ _ _ cc hmem

/-- Witness for `parse_first_creditedAs` at the concrete input "A,B". -/
theorem parse_first_creditedAs_witness :
    (parseArtistCreditsString "A,B".data).headI.creditedAs =
      some ((parseArtistCreditsString "A,B".data).headI.artist) ∧
    ∀ c ∈ (parseArtistCreditsString "A,B".data).tail, c.creditedAs = none :=
  parse_first_creditedAs "A,B".data (by decide)

/-- **C2.** Evaluation of the parser at the documented example input
"A(CV.B), C(CV.D)": the code returns FIVE credits — the four listed in
the script's own doc comment plus a trailing credit with an empty
`artist` and no `joinPhrase`, because `String.prototype.split` keeps the
trailing empty piece after the final ")" match.  This contradicts the
`@example` documentation of `parseArtistCreditsString` (and the spec),
which promise exactly four elements. -/
theorem parse_cv_example :
    parseArtistCreditsString "A(CV.B), C(CV.D)".data =
      [{ artist := "A".data, creditedAs := some "A".data, joinPhrase := some "(CV.".data },
       { artist := "B".data, creditedAs := none, joinPhrase := some "), ".data },
       { artist := "C".data, creditedAs := none, joinPhrase := some "(CV.".data },
       { artist := "D".data, creditedAs := none, joinPhrase := some ")".data },
       { artist := [], creditedAs := none, joinPhrase := none }] := by
  decide

/-! ## Editor state lemmas

The artist-credit bubble is modelled by the flat list of its
`input[type=text]` elements in document order; each element carries a
value and a disabled flag.  Groups of three consecutive inputs form one
credit slot (`getInputs`); a short final group models a malformed DOM.
JavaScript property access on `undefined` (a TypeError) is modelled by
`Except.error ()`. -/

lemma set_getElem?_self {α : Type} :
    ∀ (l : List α) (j : Nat) (b : α), l[j]? = some b → l.set j b = l := by
  intro l
  induction l with
  | nil =>
    intro j b h
    simp at h
  | cons a as ih =>
    intro j b h
    cases j with
    | zero =>
      simp only [List.getElem?_cons_zero, Option.some.injEq] at h
      simp [List.set, h]
    | succ k =>
      simp only [List.getElem?_cons_succ] at h
      simp [List.set, ih k b h]

lemma length_setInputValue (st : List InputBox) (idx : Option Nat) (v : List Char) :
    (setInputValue st idx v).length = st.length := by
  cases idx with
  | none => rfl
  | some i =>
    show (setBox st i st[i]? v).length = st.length
    rcases h : st[i]? with _ | box
    · rfl
    · show (if box.disabled = true then st
        else st.set i { box with value := v }).length = st.length
      split
      · rfl
      · simp

lemma setInputValue_getElem_ne (st : List InputBox) (i : Nat) (v : List Char)
    (j : Nat) (hne : i ≠ j) : (setInputValue st (some i) v)[j]? = st[j]? := by
  show (setBox st i st[i]? v)[j]? = st[j]?
  rcases h : st[i]? with _ | box
  · rfl
  · show (if box.disabled = true then st
      else st.set i { box with value := v })[j]? = st[j]?
    split
    · rfl
    · exact List.getElem?_set_ne hne

lemma setInputValue_write (st : List InputBox) (j : Nat) (v : List Char)
    (hj : j < st.length) (hd : ∀ b ∈ st, b.disabled = false) :
    setInputValue st (some j) v = st.set j ⟨v, false⟩ := by
  show setBox st j st[j]? v = st.set j ⟨v, false⟩
  rw [List.getElem?_eq_getElem hj]
  have hdis : st[j].disabled = false := hd _ (List.getElem_mem hj)
  show (if st[j].disabled = true then st
    else st.set j { st[j] with value := v }) = st.set j ⟨v, false⟩
  rw [if_neg (by rw [hdis]; exact Bool.false_ne_true)]
  rw [show { st[j] with value := v } = InputBox.mk v st[j].disabled from rfl, hdis]

lemma updateField_some (gr : InputGroup) (sel : InputGroup → Option Nat)
    (v : Option (List Char)) (st : List InputBox) :
    updateField (some gr) sel v st = .ok (writeTruthy st (sel gr) v) := by
  cases v with
  | none => rfl
  | some vv =>
    show (if vv.isEmpty then Except.ok st
        else Except.ok (setInputValue st (sel gr) vv)) =
      Except.ok (if vv.isEmpty then st else setInputValue st (sel gr) vv)
    by_cases he : vv.isEmpty
    · rw [if_pos he, if_pos he]
    · rw [if_neg he, if_neg he]

lemma updateInputs_some (gr : InputGroup) (c : JsCredit) (st : List InputBox) :
    updateInputs (some gr) c st =
      .ok (writeTruthy (writeTruthy (writeTruthy st gr.artist c.artist)
        gr.creditedAs c.creditedAs) gr.joinPhrase c.joinPhrase) := by
  simp only [updateInputs, updateField_some]

lemma writeTruthy_readBack (st : List InputBox) (j : Nat) :
    writeTruthy st (some j) (some ((st[j]?.getD default).value)) = st := by
  unfold writeTruthy
  rcases hj : st[j]? with _ | box
  · rfl
  · simp only [Option.getD_some]
    split
    · rfl
    · show setBox st j st[j]? box.value = st
      rw [hj]
      show (if box.disabled = true then st
        else st.set j { box with value := box.value }) = st
      split
      · rfl
      · exact set_getElem?_self st j box hj

lemma length_writeTruthy (st : List InputBox) (idx : Option Nat) (v : Option (List Char)) :
    (writeTruthy st idx v).length = st.length := by
  cases v with
  | none => rfl
  | some vv =>
    show (if vv.isEmpty then st else setInputValue st idx vv).length = st.length
    split
    · rfl
    · exact length_setInputValue ..

lemma writeTruthy_getElem_ne (st : List InputBox) (i : Nat) (v : Option (List Char))
    (j : Nat) (hne : i ≠ j) : (writeTruthy st (some i) v)[j]? = st[j]? := by
  cases v with
  | none => rfl
  | some vv =>
    show (if vv.isEmpty then st else setInputValue st (some i) vv)[j]? = st[j]?
    split
    · rfl
    · exact setInputValue_getElem_ne st i vv j hne

lemma resolveIndex_lt {n : Nat} {i : Int} {k : Nat} (h : resolveIndex n i = some k) :
    k < n := by
  unfold resolveIndex at h
  split_ifs at h <;> simp only [Option.some.injEq] at h <;> omega

lemma resolveIndex_neg_one {n : Nat} (hn : 1 ≤ n) :
    resolveIndex n (-1) = some (n - 1) := by
  unfold resolveIndex
  rw [if_neg (by omega), if_pos (by omega)]
  congr 1
  omega

lemma resolveIndex_neg_two {n : Nat} (hn : 2 ≤ n) :
    resolveIndex n (-2) = some (n - 2) := by
  unfold resolveIndex
  rw [if_neg (by omega), if_pos (by omega)]
  congr 1
  omega

lemma numGroups_mul {st : List InputBox} {n : Nat} (hlen : st.length = 3 * n) :
    numGroups st = n := by
  unfold numGroups
  omega

lemma length_allGroups (st : List InputBox) : (allGroups st).length = numGroups st := by
  simp [allGroups]

lemma getElem?_allGroups {st : List InputBox} {k : Nat} (hk : k < numGroups st) :
    (allGroups st)[k]? = some (groupAt st k) := by
  simp [allGroups, List.getElem?_map, List.getElem?_range hk]

lemma getInputs_zero (st : List InputBox) : getInputs st 0 = allGroups st := by
  simp [getInputs, jsSliceStart]

lemma jsAt_getInputs {st : List InputBox} {n : Nat} (hlen : st.length = 3 * n) (i : Int) :
    jsAt (getInputs st 0) i = (resolveIndex n i).bind (fun k => (allGroups st)[k]?) := by
  rw [getInputs_zero]
  unfold jsAt
  rw [length_allGroups, numGroups_mul hlen]

lemma groupAt_complete {st : List InputBox} {n g : Nat} (hlen : st.length = 3 * n)
    (hg : g < n) :
    groupAt st g = ⟨some (3 * g), some (3 * g + 1), some (3 * g + 2)⟩ := by
  unfold groupAt optIdx
  rw [if_pos (by omega), if_pos (by omega), if_pos (by omega)]

lemma drop_length_append {α : Type} (A B : List α) (k : Nat) (hk : A.length = k) :
    List.drop k (A ++ B) = B := by
  rw [← hk, List.drop_left]

lemma getInputs_neg_one {st : List InputBox} {n : Nat} (hlen : st.length = 3 * n)
    (hn : 1 ≤ n) : getInputs st (-1) = [groupAt st (n - 1)] := by
  unfold getInputs jsSliceStart
  rw [length_allGroups, numGroups_mul hlen]
  rw [if_pos (by omega)]
  have hstart : (max ((n : Int) + (-1)) 0).toNat = n - 1 := by omega
  rw [hstart]
  have hrange : List.range n = List.range (n - 1) ++ [n - 1] := by
    have h2 : n - 1 + 1 = n := by omega
    conv_lhs => rw [← h2]
    rw [List.range_succ]
  unfold allGroups
  rw [numGroups_mul hlen, hrange, List.map_append,
    drop_length_append _ _ _ (by simp)]
  rfl

lemma editorUpdate_resolved {st : List InputBox} {n g : Nat} {i : Int}
    (f : JsCredit → JsCredit) (hlen : st.length = 3 * n)
    (hres : resolveIndex n i = some g) :
    editorUpdate st i f =
      updateInputs (some ⟨some (3 * g), some (3 * g + 1), some (3 * g + 2)⟩)
        (f ⟨some (st[3 * g]?.getD default).value,
            some (st[3 * g + 1]?.getD default).value,
            some (st[3 * g + 2]?.getD default).value⟩) st := by
  have hg : g < n := resolveIndex_lt hres
  have hjs : jsAt (getInputs st 0) i =
      some ⟨some (3 * g), some (3 * g + 1), some (3 * g + 2)⟩ := by
    rw [jsAt_getInputs hlen, hres]
    show (allGroups st)[g]? = _
    rw [getElem?_allGroups (by rw [numGroups_mul hlen]; exact hg),
      groupAt_complete hlen hg]
  unfold editorUpdate
  rw [hjs]
  rfl

lemma editorUpdate_out {st : List InputBox} {n : Nat} {i : Int}
    (f : JsCredit → JsCredit) (hlen : st.length = 3 * n)
    (hres : resolveIndex n i = none) :
    editorUpdate st i f = .ok st := by
  have hjs : jsAt (getInputs st 0) i = none := by
    rw [jsAt_getInputs hlen, hres]
    rfl
  unfold editorUpdate
  rw [hjs]

/-! ## C5: update is an exact read-modify-write -/

lemma writeTruthy_eq_specWrite (st : List InputBox) (j : Nat) (v : Option (List Char))
    (hd : ∀ b ∈ st, b.disabled = false) :
    writeTruthy st (some j) v = specWrite st j v := by
  cases v with
  | none => rfl
  | some vv =>
    show (if vv.isEmpty then st else setInputValue st (some j) vv) =
      (if vv = [] then st else st.set j ⟨vv, false⟩)
    by_cases he : vv = []
    · rw [if_pos (by simp [he]), if_pos he]
    · rw [if_neg (by simp [List.isEmpty_iff, he]), if_neg he]
      by_cases hj : j < st.length
      · exact setInputValue_write st j vv hj hd
      · have h1 : st[j]? = none := List.getElem?_eq_none (by omega)
        show setBox st j st[j]? vv = st.set j ⟨vv, false⟩
        rw [h1, List.set_eq_of_length_le (by omega)]
        rfl

lemma disabled_specWrite {st : List InputBox} (j : Nat) (v : Option (List Char))
    (hd : ∀ b ∈ st, b.disabled = false) :
    ∀ b ∈ specWrite st j v, b.disabled = false := by
  intro b hb
  cases v with
  | none => exact hd b hb
  | some vv =>
    replace hb : b ∈ (if vv = [] then st else st.set j ⟨vv, false⟩) := hb
    split at hb
    · exact hd b hb
    · rcases List.mem_or_eq_of_mem_set hb with h | h
      · exact hd b h
      · rw [h]

/-- **C5.** `update(i, f)` is exactly the read-modify-write the spec
describes: when a slot exists at `i` (negative indices counting from the
end) its three current field values are read into a credit, `f` is
applied, and only the present non-empty fields of the result are written
back — all other fields of that slot and all other slots keep their
prior values; when no slot exists at `i` no write happens at all. -/
theorem update_read_modify_write (st : List InputBox) (i : Int) (f : JsCredit → JsCredit)
    (hlen : st.length % 3 = 0) (hd : ∀ b ∈ st, b.disabled = false) :
    editorUpdate st i f = Except.ok (updateSpecModel st i f) := by
  obtain ⟨n, hn⟩ : ∃ n, st.length = 3 * n := ⟨st.length / 3, by omega⟩
  have hdiv : st.length / 3 = n := by omega
  rcases hres : resolveIndex n i with _ | g
  · rw [editorUpdate_out f hn hres]
    unfold updateSpecModel
    rw [hdiv, hres]
  · rw [editorUpdate_resolved f hn hres, updateInputs_some]
    unfold updateSpecModel
    rw [hdiv, hres]
    show Except.ok (writeTruthy (writeTruthy (writeTruthy st (some (3 * g))
        (f (readCredit st g)).artist) (some (3 * g + 1))
        (f (readCredit st g)).creditedAs) (some (3 * g + 2))
        (f (readCredit st g)).joinPhrase) =
      Except.ok (specWriteBack st g (f (readCredit st g)))
    congr 1
    unfold specWriteBack
    generalize f (readCredit st g) = nc
    rw [writeTruthy_eq_specWrite st (3 * g) nc.artist hd,
      writeTruthy_eq_specWrite _ (3 * g + 1) nc.creditedAs
        (disabled_specWrite _ _ hd),
      writeTruthy_eq_specWrite _ (3 * g + 2) nc.joinPhrase
        (disabled_specWrite _ _ (disabled_specWrite _ _ hd))]

/-- Witness for `update_read_modify_write` at a concrete state. -/
theorem update_read_modify_write_witness :
    editorUpdate c5State (-1) (cvOpenUpdater "Z".data) =
      Except.ok (updateSpecModel c5State (-1) (cvOpenUpdater "Z".data)) :=
  update_read_modify_write c5State (-1) (cvOpenUpdater "Z".data) (by decide) (by decide)

/-! ## C8: falsy values are never written -/

lemma writeTruthy_falsy (st : List InputBox) (idx : Option Nat) (v : Option (List Char))
    (hv : truthy v = false) : writeTruthy st idx v = st := by
  cases v with
  | none => rfl
  | some vv =>
    show (if vv.isEmpty then st else setInputValue st idx vv) = st
    replace hv : (!vv.isEmpty) = false := hv
    rw [if_pos (by simpa using hv)]

/-- **C8.** Writing a falsy value — an absent field or the empty
string — through the synchronizer's update path leaves that slot
field's existing value unchanged: `updateInputs` only writes a credit's
field when its value is truthy. -/
theorem updateInputs_falsy_preserves (st : List InputBox) (g : Nat) (c : JsCredit)
    (st2 : List InputBox) (hg : 3 * g + 2 < st.length)
    (h : updateInputs (some (groupAt st g)) c st = Except.ok st2) :
    (truthy c.artist = false → st2[3 * g]? = st[3 * g]?) ∧
    (truthy c.creditedAs = false → st2[3 * g + 1]? = st[3 * g + 1]?) ∧
    (truthy c.joinPhrase = false → st2[3 * g + 2]? = st[3 * g + 2]?) := by
  have hgr : groupAt st g = ⟨some (3 * g), some (3 * g + 1), some (3 * g + 2)⟩ := by
    unfold groupAt optIdx
    rw [if_pos (by omega), if_pos (by omega), if_pos (by omega)]
  rw [hgr, updateInputs_some] at h
  injection h with h
  refine ⟨fun hf => ?_, fun hf => ?_, fun hf => ?_⟩ <;> rw [← h]
  · rw [writeTruthy_falsy st (some (3 * g)) c.artist hf,
      writeTruthy_getElem_ne _ (3 * g + 2) _ (3 * g) (by omega),
      writeTruthy_getElem_ne _ (3 * g + 1) _ (3 * g) (by omega)]
  · rw [writeTruthy_falsy _ (some (3 * g + 1)) c.creditedAs hf,
      writeTruthy_getElem_ne _ (3 * g + 2) _ (3 * g + 1) (by omega)]
    cases hca : c.artist with
    | none => rfl
    | some vv => exact writeTruthy_getElem_ne st (3 * g) _ (3 * g + 1) (by omega)
  · rw [writeTruthy_falsy _ (some (3 * g + 2)) c.joinPhrase hf,
      writeTruthy_getElem_ne _ (3 * g + 1) _ (3 * g + 2) (by omega),
      writeTruthy_getElem_ne _ (3 * g) _ (3 * g + 2) (by omega)]

/-- Witness for `updateInputs_falsy_preserves`: an all-falsy credit on a
concrete state. -/
theorem updateInputs_falsy_preserves_witness :
    (truthy (some ([] : List Char)) = false →
      (c5State : List InputBox)[3 * 0]? = c5State[3 * 0]?) ∧
    (truthy none = false → c5State[3 * 0 + 1]? = c5State[3 * 0 + 1]?) ∧
    (truthy none = false → c5State[3 * 0 + 2]? = c5State[3 * 0 + 2]?) :=
  updateInputs_falsy_preserves c5State 0 ⟨some [], none, none⟩ c5State
    (by decide) rfl

/-! ## C9: writes to missing inputs -/

/-- **C9 counterexample.**  `fill` writing credit 0 when no slot group
exists after the settling delay is not a silent no-op: `updateInputs`
receives `undefined` for the group and evaluating `inputs[key]` for the
credit's truthy `artist` throws a TypeError. -/
theorem fillWrite_missing_group_throws :
    fillWrite [] [⟨some "X".data, none, none⟩] = Except.error () := rfl

/-- **C9 amended.**  Writing a field whose input element is missing is a
no-op and raises nothing: `setInputValue` returns on an `undefined`
input, and `updateInputs` on a malformed group whose three input
elements are all missing leaves the state unchanged and succeeds.  (Only
a wholly `undefined` group — fewer groups than credits — throws, per the
counterexample.) -/
theorem missing_field_write_noop (st : List InputBox) (c : JsCredit) (v : List Char) :
    updateInputs (some ⟨none, none, none⟩) c st = Except.ok st ∧
    setInputValue st none v = st := by
  have hw : ∀ (s : List InputBox) (x : Option (List Char)), writeTruthy s none x = s := by
    intro s x
    cases x with
    | none => rfl
    | some vv =>
      show (if vv.isEmpty then s else setInputValue s none vv) = s
      split <;> rfl
  constructor
  · rw [updateInputs_some]
    show Except.ok (writeTruthy (writeTruthy (writeTruthy st none c.artist)
      none c.creditedAs) none c.joinPhrase) = Except.ok st
    rw [hw, hw, hw]
  · rfl

/-! ## C10: fill issues the right number of slot requests and never
touches slots beyond the target length -/

lemma updateField_none_ok {sel : InputGroup → Option Nat} {v : Option (List Char)}
    {st st2 : List InputBox} (h : updateField none sel v st = .ok st2) : st = st2 := by
  cases v with
  | none =>
    injection h
  | some vv =>
    replace h : (if vv.isEmpty then Except.ok st else Except.error ()) = .ok st2 := h
    split at h
    · injection h
    · exact Except.noConfusion h

lemma updateInputs_none_ok {c : JsCredit} {st st2 : List InputBox}
    (h : updateInputs none c st = .ok st2) : st = st2 := by
  unfold updateInputs at h
  rcases h1 : updateField none (fun gr => gr.artist) c.artist st with e | s1 <;>
    rw [h1] at h
  · replace h : (Except.error e : Except Unit (List InputBox)) = .ok st2 := h
    exact Except.noConfusion h
  · replace h : (match updateField none (fun gr => gr.creditedAs) c.creditedAs s1 with
      | Except.error e => Except.error e
      | Except.ok st3 => updateField none (fun gr => gr.joinPhrase) c.joinPhrase st3) =
        Except.ok st2 := h
    rcases h2 : updateField none (fun gr => gr.creditedAs) c.creditedAs s1 with e | s2 <;>
      rw [h2] at h
    · replace h : (Except.error e : Except Unit (List InputBox)) = .ok st2 := h
      exact Except.noConfusion h
    · replace h : updateField none (fun gr => gr.joinPhrase) c.joinPhrase s2 = .ok st2 := h
      rw [updateField_none_ok h1, updateField_none_ok h2, updateField_none_ok h]

lemma writeTruthy_getElem_ge (st : List InputBox) (idx : Option Nat)
    (v : Option (List Char)) (q : Nat) (hidx : ∀ m, idx = some m → m < q) :
    ∀ j, q ≤ j → (writeTruthy st idx v)[j]? = st[j]? := by
  intro j hj
  cases idx with
  | none =>
    cases v with
    | none => rfl
    | some vv =>
      show (if vv.isEmpty then st else setInputValue st none vv)[j]? = st[j]?
      split <;> rfl
  | some m =>
    refine writeTruthy_getElem_ne st m v j ?_
    have := hidx m rfl
    omega

lemma fillGo_frame :
    ∀ (cs : List JsCredit) (st : List InputBox) (gs : List InputGroup) (i : Nat)
      (st2 : List InputBox) (B : Nat)
      (hgs : ∀ k gr, gs[k]? = some gr →
        ∀ m, (gr.artist = some m ∨ gr.creditedAs = some m ∨ gr.joinPhrase = some m) →
          m < 3 * (k + 1))
      (hb : 3 * (i + cs.length) ≤ B),
      fillGo st gs cs i = .ok st2 →
      st2.length = st.length ∧ ∀ j, st2[B + j]? = st[B + j]? := by
  intro cs
  induction cs with
  | nil =>
    intro st gs i st2 B hgs hb h
    replace h : Except.ok st = .ok st2 := h
    injection h with h
    rw [h]
    exact ⟨rfl, fun j => rfl⟩
  | cons c cs ih =>
    intro st gs i st2 B hgs hb h
    replace h : (match updateInputs gs[i]? c st with
      | Except.error e => Except.error e
      | Except.ok st1 => fillGo st1 gs cs (i + 1)) = Except.ok st2 := h
    rcases hu : updateInputs gs[i]? c st with e | st1 <;> rw [hu] at h
    · replace h : (Except.error e : Except Unit (List InputBox)) = .ok st2 := h
      exact Except.noConfusion h
    · replace h : fillGo st1 gs cs (i + 1) = .ok st2 := h
      have hstep : st1.length = st.length ∧ ∀ j, st1[B + j]? = st[B + j]? := by
        rcases hgk : gs[i]? with _ | gr
        · rw [hgk] at hu
          rw [← updateInputs_none_ok hu]
          exact ⟨rfl, fun j => rfl⟩
        · rw [hgk] at hu
          rw [updateInputs_some] at hu
          injection hu with hu
          have hbound := hgs i gr hgk
          have hb2 : 3 * (i + 1) ≤ B := by
            simp only [List.length_cons] at hb
            omega
          constructor
          · rw [← hu]
            simp [length_writeTruthy, length_setInputValue]
          · intro j
            rw [← hu]
            rw [writeTruthy_getElem_ge _ gr.joinPhrase _ (3 * (i + 1))
                (fun m hm => hbound m (Or.inr (Or.inr hm))) (B + j) (by omega),
              writeTruthy_getElem_ge _ gr.creditedAs _ (3 * (i + 1))
                (fun m hm => hbound m (Or.inr (Or.inl hm))) (B + j) (by omega),
              writeTruthy_getElem_ge _ gr.artist _ (3 * (i + 1))
                (fun m hm => hbound m (Or.inl hm)) (B + j) (by omega)]
      have hrest := ih st1 gs (i + 1) st2 B hgs (by simp at hb ⊢; omega) h
      refine ⟨hrest.1.trans hstep.1, fun j => (hrest.2 j).trans (hstep.2 j)⟩

/-- **C10.** `fill(credits)` never removes a slot.  Unconditionally —
the sizing phase runs before the delayed write phase, so this holds even
on states where that write phase later throws — `fill` issues exactly
`credits.length - (current group count)` add-slot requests: zero when
the current count is already at least `credits.length`, the exact
shortfall otherwise.  And whenever the write phase completes, it has
preserved the input-list length and left every input at flat index
`≥ 3·credits.length` (i.e. every slot at index `≥ credits.length`)
unchanged. -/
theorem fill_frame (st : List InputBox) (credits : List JsCredit) :
    fillRequests st credits = credits.length - numGroups st ∧
    ∀ st2, fillWrite st credits = Except.ok st2 →
      st2.length = st.length ∧
      ∀ j, st2[3 * credits.length + j]? = st[3 * credits.length + j]? := by
  refine ⟨?_, ?_⟩
  · unfold fillRequests
    rw [getInputs_zero, length_allGroups]
    split_ifs with hlt
    · rfl
    · omega
  intro st2 h
  have hgs : ∀ k gr, (getInputs st 0)[k]? = some gr →
      ∀ m, (gr.artist = some m ∨ gr.creditedAs = some m ∨ gr.joinPhrase = some m) →
        m < 3 * (k + 1) := by
    intro k gr hk m hm
    rw [getInputs_zero] at hk
    have hk2 : k < numGroups st := by
      by_contra hc
      rw [List.getElem?_eq_none (by rw [length_allGroups]; omega)] at hk
      exact Option.noConfusion hk
    rw [getElem?_allGroups hk2] at hk
    injection hk with hk
    rw [← hk] at hm
    rcases hm with hm | hm | hm
    · replace hm : optIdx st (3 * k) = some m := hm
      unfold optIdx at hm
      split at hm
      · injection hm with hm
        omega
      · exact Option.noConfusion hm
    · replace hm : optIdx st (3 * k + 1) = some m := hm
      unfold optIdx at hm
      split at hm
      · injection hm with hm
        omega
      · exact Option.noConfusion hm
    · replace hm : optIdx st (3 * k + 2) = some m := hm
      unfold optIdx at hm
      split at hm
      · injection hm with hm
        omega
      · exact Option.noConfusion hm
  exact fillGo_frame credits st (getInputs st 0) 0 st2 (3 * credits.length) hgs
    (by omega) h

/-- Witness for `fill_frame`: the request count at an empty state with
one pending credit (the short-count case, where the later write phase
throws), and both conjuncts at a concrete two-slot state with a
one-credit target. -/
theorem fill_frame_witness :
    fillRequests ([] : List InputBox) [⟨some "X".data, none, none⟩] =
      [(⟨some "X".data, none, none⟩ : JsCredit)].length - numGroups [] ∧
    fillRequests c5State [⟨some "N".data, none, none⟩] =
      [(⟨some "N".data, none, none⟩ : JsCredit)].length - numGroups c5State ∧
    (c5State.set 0 ⟨"N".data, false⟩).length = c5State.length ∧
    ∀ j, (c5State.set 0 ⟨"N".data, false⟩)[3 * 1 + j]? = c5State[3 * 1 + j]? :=
  ⟨(fill_frame [] [⟨some "X".data, none, none⟩]).1,
   (fill_frame c5State [⟨some "N".data, none, none⟩]).1,
   (fill_frame c5State [⟨some "N".data, none, none⟩]).2
     (c5State.set 0 ⟨"N".data, false⟩) rfl⟩

/-! ## C7: lookup misses abort without mutation -/

/-- **C7.** When either lookup of the character-voice append flow
misses — the character name is not found among the on-screen preview
links, or no non-ended relationship of the expected type in the backward
direction exists — a blocking alert is shown and the flow aborts with
the slot list completely unmutated: no slot field is written and no
add-slot request is issued. -/
theorem append_cv_lookup_miss (st : List InputBox) (env : Env) (cfg : Option CVConfig)
    (freshSlot : List InputBox) (nm : List Char)
    (hnm : characterNameOf st = some nm) (hne : nm ≠ [])
    (hmiss : findCharacterMBID env nm = none ∨
      (∃ gid, findCharacterMBID env nm = some gid ∧ gid ≠ [] ∧
        findVoiceRelation env.relations = none)) :
    (appendCharacterCV st env cfg freshSlot).result = Except.ok st ∧
    (appendCharacterCV st env cfg freshSlot).addRequests = 0 ∧
    (appendCharacterCV st env cfg freshSlot).alerts ≠ [] := by
  have hie : nm.isEmpty = false := by
    cases h : nm.isEmpty with
    | false => rfl
    | true => exact absurd (List.isEmpty_iff.mp h) hne
  rcases hmiss with hmiss | ⟨gid, hgid, hgidne, hrel⟩
  · have e : appendCharacterCV st env cfg freshSlot =
        ⟨[alertCharacterNotFound], Except.ok st, 0⟩ := by
      simp only [appendCharacterCV, hnm, hie, Bool.false_eq_true, if_false, hmiss,
        getVoiceActor, List.append_nil]
    rw [e]
    exact ⟨rfl, rfl, by simp⟩
  · have hgie : gid.isEmpty = false := by
      cases h : gid.isEmpty with
      | false => rfl
      | true => exact absurd (List.isEmpty_iff.mp h) hgidne
    have e : appendCharacterCV st env cfg freshSlot =
        ⟨[alertNoVoiceActor], Except.ok st, 0⟩ := by
      simp only [appendCharacterCV, hnm, hie, Bool.false_eq_true, if_false, hgid,
        getVoiceActor, hgie, hrel, List.nil_append]
    rw [e]
    exact ⟨rfl, rfl, by simp⟩

/-- Witness for `append_cv_lookup_miss`: an empty preview screen. -/
theorem append_cv_lookup_miss_witness :
    (appendCharacterCV c5State ⟨[], []⟩ none []).result = Except.ok c5State ∧
    (appendCharacterCV c5State ⟨[], []⟩ none []).addRequests = 0 ∧
    (appendCharacterCV c5State ⟨[], []⟩ none []).alerts ≠ [] :=
  append_cv_lookup_miss c5State ⟨[], []⟩ none [] "Chara".data rfl (by decide)
    (Or.inl rfl)

/-! ## C6: the character-voice append flow, success path -/

lemma writeTruthy_write (st : List InputBox) (j : Nat) (v : List Char) (hv : v ≠ [])
    (hj : j < st.length) (hd : ∀ b ∈ st, b.disabled = false) :
    writeTruthy st (some j) (some v) = st.set j ⟨v, false⟩ := by
  show (if v.isEmpty then st else setInputValue st (some j) v) = _
  rw [if_neg (by simp [List.isEmpty_iff, hv]), setInputValue_write st j v hj hd]

lemma characterNameOf_complete {st : List InputBox} {n : Nat}
    (hlen : st.length = 3 * n) (hn : 1 ≤ n) :
    characterNameOf st = some ((st[3 * (n - 1)]?.getD default).value) := by
  unfold characterNameOf
  rw [getInputs_neg_one hlen hn]
  rw [show ([groupAt st (n - 1)] : List InputGroup)[0]? = some (groupAt st (n - 1))
    from rfl]
  rw [groupAt_complete hlen (by omega)]

lemma editorUpdate_sep {st : List InputBox} {n : Nat} (sep : List Char)
    (hlen : st.length = 3 * n) (hn : 2 ≤ n) (hd : ∀ b ∈ st, b.disabled = false) :
    editorUpdate st (-2) (cvSepUpdater sep) =
      Except.ok (st.set (3 * (n - 2) + 2)
        ⟨(st[3 * (n - 2) + 2]?.getD default).value ++ sep ++ [' '], false⟩) := by
  rw [editorUpdate_resolved _ hlen (resolveIndex_neg_two hn), updateInputs_some]
  show Except.ok (writeTruthy (writeTruthy (writeTruthy st (some (3 * (n - 2)))
      (some ((st[3 * (n - 2)]?.getD default).value))) (some (3 * (n - 2) + 1))
      (some ((st[3 * (n - 2) + 1]?.getD default).value))) (some (3 * (n - 2) + 2))
      (some ((st[3 * (n - 2) + 2]?.getD default).value ++ sep ++ [' ']))) = _
  rw [writeTruthy_readBack, writeTruthy_readBack,
    writeTruthy_write _ _ _ (by simp) (by omega) hd]

lemma editorUpdate_open {st : List InputBox} {n : Nat} (tok : List Char)
    (hlen : st.length = 3 * n) (hn : 1 ≤ n) (htok : tok ≠ [])
    (hd : ∀ b ∈ st, b.disabled = false) :
    editorUpdate st (-1) (cvOpenUpdater tok) =
      Except.ok (st.set (3 * (n - 1) + 2) ⟨tok, false⟩) := by
  rw [editorUpdate_resolved _ hlen (resolveIndex_neg_one hn), updateInputs_some]
  show Except.ok (writeTruthy (writeTruthy (writeTruthy st (some (3 * (n - 1)))
      (some ((st[3 * (n - 1)]?.getD default).value))) (some (3 * (n - 1) + 1))
      (some ((st[3 * (n - 1) + 1]?.getD default).value))) (some (3 * (n - 1) + 2))
      (some tok)) = _
  rw [writeTruthy_readBack, writeTruthy_readBack,
    writeTruthy_write _ _ _ htok (by omega) hd]

lemma set_append_offset {α : Type} (A B : List α) (k : Nat) (x : α) :
    (A ++ B).set (A.length + k) x = A ++ B.set k x := by
  rw [List.set_append, if_neg (by omega), Nat.add_sub_cancel_left]

lemma appendWrite_fresh {st : List InputBox} {n : Nat} (mbid closeTok : List Char)
    (hlen : st.length = 3 * n) (hm : mbid ≠ []) (hc : closeTok ≠ [])
    (hd : ∀ b ∈ st, b.disabled = false) :
    appendWrite (st ++ List.replicate 3 default) ⟨some mbid, none, some closeTok⟩ =
      Except.ok (st ++ [⟨mbid, false⟩, ⟨[], false⟩, ⟨closeTok, false⟩]) := by
  have hlen3 : (st ++ List.replicate 3 default).length = 3 * (n + 1) := by
    simp [hlen]
    omega
  have hd3 : ∀ b ∈ st ++ List.replicate 3 default, b.disabled = false := by
    intro b hb
    rcases List.mem_append.mp hb with h | h
    · exact hd b h
    · rw [List.eq_of_mem_replicate h]
      rfl
  unfold appendWrite
  rw [getInputs_neg_one hlen3 (by omega)]
  rw [show ([groupAt (st ++ List.replicate 3 default) (n + 1 - 1)] :
      List InputGroup)[0]? = some (groupAt (st ++ List.replicate 3 default) (n + 1 - 1))
    from rfl]
  rw [show n + 1 - 1 = n from rfl, groupAt_complete hlen3 (by omega),
    updateInputs_some]
  show Except.ok (writeTruthy (writeTruthy (st ++ List.replicate 3 default)
      (some (3 * n)) (some mbid)) (some (3 * n + 2)) (some closeTok)) = _
  rw [writeTruthy_write _ _ _ hm (by omega) hd3]
  have hd4 : ∀ b ∈ (st ++ List.replicate 3 default).set (3 * n) ⟨mbid, false⟩,
      b.disabled = false := by
    intro b hb
    rcases List.mem_or_eq_of_mem_set hb with h | h
    · exact hd3 b h
    · rw [h]
  rw [writeTruthy_write _ _ _ hc (by simp; omega) hd4]
  rw [show 3 * n = st.length + 0 from by omega, set_append_offset]
  rw [show st.length + 0 + 2 = st.length + 2 from rfl, set_append_offset]
  rfl

/-- **C6.** On the success path of the character-voice append flow (both
lookups succeed, yielding the performer identifier `rel.artistId`), the
flow performs exactly: the second-to-last slot's join phrase becomes its
prior value concatenated with the configured separator and a single
space; the last slot's join phrase becomes the configured opening token;
one new slot is appended holding the performer identifier and the
configured closing token; exactly one add-slot request is issued and no
alert is shown.  The tokens come from the persisted configuration, with
defaults " (CV ", ")", "," when it is unset. -/
theorem append_cv_success (st : List InputBox) (n : Nat) (env : Env)
    (cfg : Option CVConfig) (gid : List Char) (rel : Relation)
    (hlen : st.length = 3 * n) (hn : 2 ≤ n)
    (hd : ∀ b ∈ st, b.disabled = false)
    (hne : (st[3 * (n - 1)]?.getD default).value ≠ [])
    (hgidv : findCharacterMBID env ((st[3 * (n - 1)]?.getD default).value) = some gid)
    (hgidne : gid ≠ [])
    (hrel : findVoiceRelation env.relations = some rel)
    (hm : rel.artistId ≠ [])
    (hopen : (getCVJoinPhrases cfg).joinPhrase1 ≠ [])
    (hclose : (getCVJoinPhrases cfg).joinPhrase2 ≠ []) :
    appendCharacterCV st env cfg (List.replicate 3 default) =
      ⟨[], Except.ok
        (((st.set (3 * (n - 2) + 2)
            ⟨(st[3 * (n - 2) + 2]?.getD default).value ++
              (getCVJoinPhrases cfg).separator ++ [' '], false⟩).set
          (3 * (n - 1) + 2) ⟨(getCVJoinPhrases cfg).joinPhrase1, false⟩) ++
         [⟨rel.artistId, false⟩, ⟨[], false⟩,
          ⟨(getCVJoinPhrases cfg).joinPhrase2, false⟩]),
       1⟩ ∧
    getCVJoinPhrases none = ⟨" (CV ".data, ")".data, ",".data⟩ := by
  have hnmOf := characterNameOf_complete hlen (by omega)
  have hie : ((st[3 * (n - 1)]?.getD default).value).isEmpty = false := by
    cases h : ((st[3 * (n - 1)]?.getD default).value).isEmpty with
    | false => rfl
    | true => exact absurd (List.isEmpty_iff.mp h) hne
  have hgie : gid.isEmpty = false := by
    cases h : gid.isEmpty with
    | false => rfl
    | true => exact absurd (List.isEmpty_iff.mp h) hgidne
  have hmie : rel.artistId.isEmpty = false := by
    cases h : rel.artistId.isEmpty with
    | false => rfl
    | true => exact absurd (List.isEmpty_iff.mp h) hm
  have e1 := editorUpdate_sep (getCVJoinPhrases cfg).separator hlen hn hd
  have hlen1 : (st.set (3 * (n - 2) + 2)
      ⟨(st[3 * (n - 2) + 2]?.getD default).value ++
        (getCVJoinPhrases cfg).separator ++ [' '], false⟩).length = 3 * n := by
    simp [hlen]
  have hd1 : ∀ b ∈ st.set (3 * (n - 2) + 2)
      ⟨(st[3 * (n - 2) + 2]?.getD default).value ++
        (getCVJoinPhrases cfg).separator ++ [' '], false⟩, b.disabled = false := by
    intro b hb
    rcases List.mem_or_eq_of_mem_set hb with h | h
    · exact hd b h
    · rw [h]
  have e2 := editorUpdate_open (getCVJoinPhrases cfg).joinPhrase1 hlen1 (by omega)
    hopen hd1
  have hlen2 : ((st.set (3 * (n - 2) + 2)
      ⟨(st[3 * (n - 2) + 2]?.getD default).value ++
        (getCVJoinPhrases cfg).separator ++ [' '], false⟩).set (3 * (n - 1) + 2)
      ⟨(getCVJoinPhrases cfg).joinPhrase1, false⟩).length = 3 * n := by
    simp [hlen]
  have hd2 : ∀ b ∈ (st.set (3 * (n - 2) + 2)
      ⟨(st[3 * (n - 2) + 2]?.getD default).value ++
        (getCVJoinPhrases cfg).separator ++ [' '], false⟩).set (3 * (n - 1) + 2)
      ⟨(getCVJoinPhrases cfg).joinPhrase1, false⟩, b.disabled = false := by
    intro b hb
    rcases List.mem_or_eq_of_mem_set hb with h | h
    · exact hd1 b h
    · rw [h]
  have e3 := appendWrite_fresh rel.artistId (getCVJoinPhrases cfg).joinPhrase2
    hlen2 hm hclose hd2
  refine ⟨?_, rfl⟩
  simp only [appendCharacterCV, hnmOf, hie, Bool.false_eq_true, if_false, hgidv,
    getVoiceActor, hgie, hrel, hmie, List.nil_append, List.append_nil, e1, e2, e3]

/-- Witness for `append_cv_success` on a concrete two-slot state with
the default configuration. -/
theorem append_cv_success_witness :
    appendCharacterCV c5State c6Env none (List.replicate 3 default) =
      ⟨[], Except.ok
        (((c5State.set (3 * (2 - 2) + 2)
            ⟨(c5State[3 * (2 - 2) + 2]?.getD default).value ++
              (getCVJoinPhrases none).separator ++ [' '], false⟩).set
          (3 * (2 - 1) + 2) ⟨(getCVJoinPhrases none).joinPhrase1, false⟩) ++
         [⟨"abc-123".data, false⟩, ⟨[], false⟩,
          ⟨(getCVJoinPhrases none).joinPhrase2, false⟩]),
       1⟩ ∧
    getCVJoinPhrases none = ⟨" (CV ".data, ")".data, ",".data⟩ :=
  append_cv_success c5State 2 c6Env none "gid1".data
    ⟨RELATIONSHIP_ID, "backward".data, false, "abc-123".data⟩
    rfl (by omega) (by decide) (by decide) rfl (by decide) rfl (by decide)
    (by decide) (by decide)

/-- **C6 counterexample.**  With the configured opening and closing
tokens set to the empty string, the success path does NOT set the last
slot's join phrase to the configured opening token: the empty string is
falsy, the write is skipped, and the prior value "OLD" survives (and the
appended slot's join phrase likewise stays empty rather than being
written).  The claim as stated — for every configured token set the last
slot's join phrase becomes the opening token — is therefore false at
this input. -/
theorem append_cv_empty_token_counterexample :
    (appendCharacterCV cexState c6Env (some ⟨([], []), []⟩)
        (List.replicate 3 default)).result =
      Except.ok [⟨"X".data, false⟩, ⟨[], false⟩, ⟨" &  ".data, false⟩,
        ⟨"Chara".data, false⟩, ⟨[], false⟩, ⟨"OLD".data, false⟩,
        ⟨"abc-123".data, false⟩, ⟨[], false⟩, ⟨[], false⟩] := rfl
